import Mathlib

/-!
Verification development for the PV encrypted-container codec and the
local object store of the gdrive repository.

The embedding is shallow and byte-granular: buffers are `List Nat` where
header, salt, IV and length fields hold genuine byte values.  The platform
AES-GCM primitive (`crypto.subtle.encrypt` / `crypto.subtle.decrypt` with
`tagLength: 128`) is modelled symbolically as an ideal AEAD: the ciphertext
is the message followed by a 16-slot authentication tag whose first slot is
an injective encoding of (key, iv, message).  This gives the primitive
exactly the interface properties the code relies on — ciphertext length is
plaintext length + 16, decryption inverts encryption for matching key/IV,
and decryption of anything that is not a single encryption under that
key/IV fails authentication.  Everything else (container layout, chunking,
size-tier dispatch, segment-IV derivation, the IndexedDB store) is
translated directly from the source.
-/

namespace GDrive

/-- Error taxonomy of the codec and store (spec §7); results of fallible
source functions are `Except PVError _`. -/
inductive PVError where
  | invalidFormat
  | corruptMetadata
  | truncatedInput
  | authenticationFailed
  | tooLarge
  | workerFailure
  | recordNotFound
  deriving DecidableEq, Repr

/-- Symbolic AES key material.  For a PV key this is
(UTF-8 code points of the seed phrase, salt); for the at-rest key it is
(raw key bytes, []).  PBKDF2 is deterministic, so a derived key is fully
determined by this pair. -/
abbrev Key := List Nat × List Nat

/-- Constants from src/lib/pv-format.ts lines 21-29. -/
def SALT_LENGTH : Nat := 16
def IV_LENGTH : Nat := 12
def ITERATION_COUNT : Nat := 100000
/-- The header tag "PVENC01" as ASCII bytes (TextEncoder on the 7-character header tag). -/
def pvHeaderBytes : List Nat := [80, 86, 69, 78, 67, 48, 49]
def LARGE_FILE_THRESHOLD : Nat := 50 * 1024 * 1024
def CHUNK_SIZE : Nat := 1 * 1024 * 1024
/-- The JS constant is `1.8 * 1024 * 1024 * 1024 = 1932735283.2`; for the
integer byte lengths it is compared against, `x > 1932735283.2` is the same
as `x > 1932735283`. -/
def MAX_DECRYPT_SIZE : Nat := 1932735283
/-- Same fractional constant (1.8 GB) as `MAX_DECRYPT_SIZE`. -/
def VERY_LARGE_FILE_THRESHOLD : Nat := 1932735283
def MAX_SEGMENT_SIZE : Nat := 1610612736
/-- The `2.1 * 1024 * 1024 * 1024 = 2254857830.4` guard inside
`importLargePVFile` (line 518); over integers `x > 2254857830.4` is
`x > 2254857830`. -/
def BROWSER_DECRYPT_LIMIT : Nat := 2254857830

/-- The 16-slot authentication tag of the ideal AEAD.  Its head injectively
encodes (key, iv, message) — shifted by one so that a tag never starts
with 0 — which models a 128-bit GCM tag that authenticates exactly the
triple that produced it. -/
def tagFn (key : Key) (iv msg : List Nat) : List Nat :=
  (Encodable.encode (key, iv, msg) + 1) :: List.replicate 15 0

/-- Ideal model of `crypto.subtle.encrypt({name: "AES-GCM", iv, tagLength: 128}, key, pt)`:
ciphertext body followed by the 16-slot tag. -/
def aesGcmEncrypt (key : Key) (iv pt : List Nat) : List Nat :=
  pt ++ tagFn key iv pt

/-- Ideal model of `crypto.subtle.decrypt({name: "AES-GCM", iv, tagLength: 128}, key, ct)`:
strips the 16-slot tag from the end and authenticates it; anything that is
not a single `aesGcmEncrypt` output under the same key/IV is rejected. -/
def aesGcmDecrypt (key : Key) (iv ct : List Nat) : Except PVError (List Nat) :=
  if ct.length < 16 then .error .authenticationFailed
  else if ct.drop (ct.length - 16) = tagFn key iv (ct.take (ct.length - 16)) then
    .ok (ct.take (ct.length - 16))
  else .error .authenticationFailed

theorem length_tagFn (key : Key) (iv msg : List Nat) : (tagFn key iv msg).length = 16 := by
  simp [tagFn]

theorem length_aesGcmEncrypt (key : Key) (iv pt : List Nat) :
    (aesGcmEncrypt key iv pt).length = pt.length + 16 := by
  simp [aesGcmEncrypt, length_tagFn]

theorem aesGcmEncrypt_ne_nil (key : Key) (iv pt : List Nat) : aesGcmEncrypt key iv pt ≠ [] := by
  intro h
  have := congrArg List.length h
  rw [length_aesGcmEncrypt] at this
  simp at this

theorem tagFn_inj {key : Key} {iv m m' : List Nat} (h : tagFn key iv m = tagFn key iv m') :
    m = m' := by
  simp only [tagFn, List.cons.injEq] at h
  have henc : Encodable.encode (key, iv, m) = Encodable.encode (key, iv, m') := by omega
  have h2 := Encodable.encode_injective henc
  simpa using congrArg (fun p => p.2.2) h2

theorem aesGcmDecrypt_append_tag (key : Key) (iv b m : List Nat) :
    aesGcmDecrypt key iv (b ++ tagFn key iv m) =
      if tagFn key iv m = tagFn key iv b then .ok b else .error .authenticationFailed := by
  have ht : (tagFn key iv m).length = 16 := length_tagFn key iv m
  have hlen : (b ++ tagFn key iv m).length = b.length + 16 := by
    simp [ht]
  have hsub : (b ++ tagFn key iv m).length - 16 = b.length := by omega
  have htake : (b ++ tagFn key iv m).take b.length = b := List.take_left b _
  have hdrop : (b ++ tagFn key iv m).drop b.length = tagFn key iv m := List.drop_left b _
  unfold aesGcmDecrypt
  rw [if_neg (by omega), hsub, htake, hdrop]

/-- Round trip of the ideal AEAD: decryption under the same key and IV
recovers the plaintext. -/
theorem aesGcmDecrypt_encrypt (key : Key) (iv pt : List Nat) :
    aesGcmDecrypt key iv (aesGcmEncrypt key iv pt) = .ok pt := by
  rw [aesGcmEncrypt, aesGcmDecrypt_append_tag, if_pos rfl]

/-- Split a buffer into chunks of `n` elements (the last one may be
shorter), mirroring the chunk loop of `exportLargeFileToPV` (lines
312-343: `totalChunks = ceil(size / CHUNK_SIZE)`, chunk `i` is the slice
`[i*CHUNK_SIZE, min((i+1)*CHUNK_SIZE, size))`).  The `n = 0` guard only
serves termination; every use instantiates `n` with a positive constant. -/
def chunkList (n : Nat) (l : List α) : List (List α) :=
  match l with
  | [] => []
  | x :: xs =>
    if n = 0 then []
    else (x :: xs).take n :: chunkList n ((x :: xs).drop n)
termination_by l.length
decreasing_by
  simp only [List.length_drop, List.length_cons]
  omega

theorem chunkList_nil (n : Nat) : chunkList n ([] : List α) = [] := by
  rw [chunkList]

theorem chunkList_cons {n : Nat} (hn : n ≠ 0) {l : List α} (hl : l ≠ []) :
    chunkList n l = l.take n :: chunkList n (l.drop n) := by
  rcases l with _ | ⟨x, xs⟩
  · exact absurd rfl hl
  · rw [chunkList]
    simp [hn]

theorem chunkList_ne_nil {n : Nat} (hn : n ≠ 0) {l : List α} (hl : l ≠ []) :
    chunkList n l ≠ [] := by
  rw [chunkList_cons hn hl]
  simp

/-- Concatenating the chunks gives the original buffer back. -/
theorem flatten_chunkList {n : Nat} (hn : n ≠ 0) (l : List α) :
    (chunkList n l).flatten = l := by
  by_cases hl : l = []
  · subst hl
    simp [chunkList_nil]
  · rw [chunkList_cons hn hl]
    simp only [List.flatten_cons]
    rw [flatten_chunkList hn (l.drop n)]
    exact List.take_append_drop n l
termination_by l.length
decreasing_by
  have h0 : 0 < l.length := List.length_pos.mpr hl
  simp only [List.length_drop]
  omega

/-- There are never more chunks than elements. -/
theorem chunkList_length_le {n : Nat} (hn : n ≠ 0) (l : List α) :
    (chunkList n l).length ≤ l.length := by
  by_cases hl : l = []
  · subst hl
    simp [chunkList_nil]
  · rw [chunkList_cons hn hl]
    have h0 : 0 < l.length := List.length_pos.mpr hl
    have ih := chunkList_length_le hn (l.drop n)
    simp only [List.length_cons, List.length_drop] at *
    omega
termination_by l.length
decreasing_by
  have h0 : 0 < l.length := List.length_pos.mpr hl
  simp only [List.length_drop]
  omega

/-- A buffer longer than the chunk size yields at least two chunks. -/
theorem two_le_chunkList_length {n : Nat} (hn : n ≠ 0) {l : List α}
    (h : n < l.length) : 2 ≤ (chunkList n l).length := by
  have hl : l ≠ [] := by
    intro hnil
    subst hnil
    simp at h
  rw [chunkList_cons hn hl]
  have hd : l.drop n ≠ [] := by
    intro hnil
    have := congrArg List.length hnil
    simp only [List.length_drop, List.length_nil] at this
    omega
  have := List.length_pos.mpr (chunkList_ne_nil hn hd)
  simp only [List.length_cons]
  omega

/-- Decrypting the concatenation of two or more separate AEAD outputs as a
single AES-GCM message fails authentication: the trailing 16 slots are the
last block's tag, which authenticates only that block's body, not the whole
concatenation. -/
theorem aesGcmDecrypt_flatten_encrypt_error (key : Key) (iv : List Nat)
    {cs : List (List Nat)} (h2 : 2 ≤ cs.length) :
    aesGcmDecrypt key iv ((cs.map (aesGcmEncrypt key iv)).flatten) =
      .error .authenticationFailed := by
  rcases List.eq_nil_or_concat cs with rfl | ⟨cs', c, rfl⟩
  · simp at h2
  · rw [List.concat_eq_append] at h2 ⊢
    have hflat : ((cs' ++ [c]).map (aesGcmEncrypt key iv)).flatten
        = ((cs'.map (aesGcmEncrypt key iv)).flatten ++ c) ++ tagFn key iv c := by
      simp [aesGcmEncrypt, List.append_assoc]
    rw [hflat, aesGcmDecrypt_append_tag]
    have hcs' : cs' ≠ [] := by
      intro hnil
      subst hnil
      simp at h2
    rw [if_neg]
    intro heq
    have hc : c = (cs'.map (aesGcmEncrypt key iv)).flatten ++ c := tagFn_inj heq
    have hlen := congrArg List.length hc
    rcases cs' with _ | ⟨x, xs⟩
    · exact hcs' rfl
    · have hx := length_aesGcmEncrypt key iv x
      simp only [List.map_cons, List.flatten_cons, List.length_append] at hlen
      omega

/-- Little-endian 4-byte encoding of a 32-bit length, as produced by
`new Uint32Array([len])` viewed through its backing buffer on the
little-endian platforms the app runs on (export lines 216/235). -/
def u32le (n : Nat) : List Nat :=
  [n % 256, n / 256 % 256, n / 65536 % 256, n / 16777216 % 256]

/-- Reading 4 bytes back as an unsigned 32-bit integer, as done by
`new Uint32Array(fileData.slice(offset, offset + 4).buffer)[0]`
(import lines 448/558/709). -/
def leU32 (l : List Nat) : Nat :=
  l.getD 0 0 + 256 * l.getD 1 0 + 65536 * l.getD 2 0 + 16777216 * l.getD 3 0

theorem length_u32le (n : Nat) : (u32le n).length = 4 := by
  simp [u32le]

theorem leU32_u32le {n : Nat} (h : n < 4294967296) : leU32 (u32le n) = n := by
  simp only [u32le, leU32, List.getD_cons_zero, List.getD_cons_succ]
  omega

/-! ### Key derivation and at-rest decryption -/

/-- Model of `deriveKeyFromSeedPhrase` (pv-format.ts lines 128-152).  The source
performs no input validation at all: it encodes the seed phrase, imports it
as PBKDF2 key material and derives an AES-GCM key.  PBKDF2 accepts salts of
any length, and the source adds no emptiness or length checks of its own,
so the function has no failure path; the result is the symbolic derived key
determined by (seed phrase, salt). -/
def deriveKeyFromSeedPhrase (seedPhrase : String) (salt : List Nat) :
    Except PVError Key :=
  .ok (seedPhrase.toList.map Char.toNat, salt)

/-- The key a successful derivation returns. -/
def pvKey (seedPhrase : String) (salt : List Nat) : Key :=
  (seedPhrase.toList.map Char.toNat, salt)

theorem deriveKeyFromSeedPhrase_eq (seedPhrase : String) (salt : List Nat) :
    deriveKeyFromSeedPhrase seedPhrase salt = .ok (pvKey seedPhrase salt) := rfl

/-- Model of `decryptFileContent` (pv-format.ts lines 353-383): at-rest decryption
used when preparing a file for PV export.  The stored blob is IV (first 12
bytes) followed by the AES-GCM ciphertext.  The source's `catch` branch
returns the original, still-encrypted blob when decryption fails
(line 381: "If decryption fails, return the original blob").  The key
acquisition (`getOrCreateEncryptionKey`) is modelled as a parameter. -/
def decryptFileContent (key : Key) (encryptedBlob : List Nat) : List Nat :=
  match aesGcmDecrypt key (encryptedBlob.take 12) (encryptedBlob.drop 12) with
  | .ok plaintext => plaintext
  | .error _ => encryptedBlob

/-! ### Metadata and the container layout -/

/-- The export metadata `{name, type, size, lastModified}` (the source also
stores `originalFilename`, a verbatim copy of `name`; import reads
`originalFilename || name`, so the copy is dropped here).  Strings are
lists of code points. -/
abbrev Metadata := List Nat × List Nat × Nat × Nat

/-- Model of `JSON.stringify` + `TextEncoder` on the metadata object, modelled as an
injective serialization into a (here: one-slot) block, with a computable
inverse. -/
def metadataBytes (md : Metadata) : List Nat :=
  [Encodable.encode md]

/-- Model of `JSON.parse` on the decoded metadata block (inverse of
`metadataBytes`); malformed input is the source's JSON-parse throw. -/
def parseMetadata (l : List Nat) : Except PVError Metadata :=
  match l with
  | [e] =>
    match (Encodable.decode e : Option Metadata) with
    | some md => .ok md
    | none => .error .corruptMetadata
  | _ => .error .corruptMetadata

theorem parseMetadata_metadataBytes (md : Metadata) :
    parseMetadata (metadataBytes md) = .ok md := by
  simp only [parseMetadata, metadataBytes, Encodable.encodek]

theorem length_metadataBytes (md : Metadata) : (metadataBytes md).length = 1 := rfl

/-- A file as the export path sees it (the relevant `FileItem` fields). -/
structure PVFile where
  name : List Nat
  fileType : List Nat
  size : Nat
  lastModified : Nat
  deriving DecidableEq, Repr

def metadataOf (f : PVFile) : Metadata :=
  (f.name, f.fileType, f.size, f.lastModified)

/-- HEADER + SALT + IV + METADATA_LENGTH (4 bytes) + METADATA + CIPHERTEXT
(export lines 214, 228-239 and 293-308). -/
def mkContainer (salt iv mdB ct : List Nat) : List Nat :=
  pvHeaderBytes ++ salt ++ iv ++ u32le mdB.length ++ mdB ++ ct

/-- The ciphertext region produced by export: a single AEAD output for
files up to `LARGE_FILE_THRESHOLD` (`exportFileToPV`, lines 203-211),
otherwise the in-order concatenation of one AEAD output per
`CHUNK_SIZE`-byte chunk, all under the same key and base IV
(`exportLargeFileToPV`, lines 312-343).  The branch is on `file.size`
(line 158); the chunk loop runs over the actual content. -/
def exportCiphertext (key : Key) (iv : List Nat) (fileSize : Nat)
    (content : List Nat) : List Nat :=
  if fileSize > LARGE_FILE_THRESHOLD then
    ((chunkList CHUNK_SIZE content).map (aesGcmEncrypt key iv)).flatten
  else
    aesGcmEncrypt key iv content

/-- Model of `exportFileToPV` / `exportLargeFileToPV` (lines 155-351), as a
deterministic function of the randomness (salt, iv), the seed phrase, the
file record and its (at-rest-decrypted) content. -/
def exportFileToPV (seedPhrase : String) (salt iv : List Nat) (file : PVFile)
    (content : List Nat) : List Nat :=
  mkContainer salt iv (metadataBytes (metadataOf file))
    (exportCiphertext (pvKey seedPhrase salt) iv file.size content)

/-! ### Segment IV derivation -/

/-- Source function `deriveSegmentIv` (pv-format.ts lines 650-667 and the identical copy in
the decryption worker, lines 139-156): copy the base IV and XOR its last 4
bytes with the big-endian bytes of the segment index.  For indices below
2^32 the JS expressions `(segmentIndex >> s) & 0xff` produce exactly the
big-endian base-256 digits used here. -/
def deriveSegmentIv (baseIv : List Nat) (segmentIndex : Nat) : List Nat :=
  let indexBytes : List Nat :=
    [segmentIndex / 16777216 % 256, segmentIndex / 65536 % 256,
     segmentIndex / 256 % 256, segmentIndex % 256]
  baseIv.take (baseIv.length - 4) ++
    (baseIv.drop (baseIv.length - 4)).zipWith (fun b ib => b ^^^ ib) indexBytes

/-! ### Import -/

/-- Effects the import pipeline can perform after parsing the header; used
to state that bad-magic rejection happens before any of them. -/
inductive PVEvent where
  | getSeedPhrase
  | deriveKey
  | decrypt
  deriving DecidableEq, Repr

/-- The file record a successful import produces (name is
`metadata.originalFilename || metadata.name`, `folderId: null`,
`encrypted: false`). -/
structure ImportedFile where
  name : List Nat
  fileType : List Nat
  size : Nat
  lastModified : Nat
  content : List Nat
  deriving DecidableEq, Repr

def mkImportedFile (md : Metadata) (content : List Nat) : ImportedFile :=
  { name := md.1, fileType := md.2.1, size := md.2.2.1,
    lastModified := md.2.2.2, content := content }

/-- Header fields as every import path reads them (offsets 7/23/35/39). -/
def headerSalt (data : List Nat) : List Nat := (data.drop 7).take 16
def headerIv (data : List Nat) : List Nat := (data.drop 23).take 12
def headerMdLen (data : List Nat) : Nat := leU32 ((data.drop 35).take 4)

/-- Sequentially decrypt the segments of the streaming path, segment `k`
under `deriveSegmentIv iv k`, concatenating results in index order; the
first failure aborts the whole import (worker lines 86-135, driver lines
739-788). -/
def decryptSegments (key : Key) (iv : List Nat) :
    Nat → List (List Nat) → Except PVError (List Nat)
  | _, [] => .ok []
  | k, s :: rest =>
    match aesGcmDecrypt key (deriveSegmentIv iv k) s with
    | .error e => .error e
    | .ok p =>
      match decryptSegments key iv (k + 1) rest with
      | .error e => .error e
      | .ok ps => .ok (p ++ ps)

/-- Model of `importStreamingPVFile` (lines 670-899): header check and field
extraction from the first 1 MB, then worker-based segmented decryption of
the remainder in `MAX_SEGMENT_SIZE` slices.  When the ciphertext region is
empty the driver still sends one (empty) segment, because
`processNextSegment(0)` runs unconditionally after `initialized`. -/
def importStreamingPVFile (seedPhrase : String) (data : List Nat) :
    Except PVError ImportedFile × List PVEvent :=
  let headerData := data.take 1048576
  if headerData.take 7 ≠ pvHeaderBytes then (.error .invalidFormat, [])
  else
    let salt := headerSalt headerData
    let iv := headerIv headerData
    if data.length < 39 then (.error .truncatedInput, [])
    else
      let mdLen := headerMdLen headerData
      match parseMetadata ((headerData.drop 39).take mdLen) with
      | .error e => (.error e, [])
      | .ok md =>
        let totalHeaderSize := 39 + mdLen
        let key := pvKey seedPhrase salt
        let remainder := data.drop totalHeaderSize
        let segments := if remainder = [] then [[]]
          else chunkList MAX_SEGMENT_SIZE remainder
        match decryptSegments key iv 0 segments with
        | .ok content =>
          (.ok (mkImportedFile md content), [.getSeedPhrase, .deriveKey, .decrypt])
        | .error _ =>
          (.error .authenticationFailed, [.getSeedPhrase, .deriveKey, .decrypt])

/-- Model of `importLargePVFile` (lines 513-647): browser-size guard, header check
and field extraction from the first 1 MB, seed phrase + key derivation,
escalation to the streaming path when the remaining length exceeds
`MAX_DECRYPT_SIZE`, otherwise one single AEAD decryption of the entire
ciphertext region. -/
def importLargePVFile (seedPhrase : String) (data : List Nat) :
    Except PVError ImportedFile × List PVEvent :=
  if data.length > BROWSER_DECRYPT_LIMIT then (.error .tooLarge, [])
  else
    let headerData := data.take 1048576
    if headerData.take 7 ≠ pvHeaderBytes then (.error .invalidFormat, [])
    else
      let salt := headerSalt headerData
      let iv := headerIv headerData
      if data.length < 39 then (.error .truncatedInput, [])
      else
        let mdLen := headerMdLen headerData
        match parseMetadata ((headerData.drop 39).take mdLen) with
        | .error e => (.error e, [])
        | .ok md =>
          let totalHeaderSize := 39 + mdLen
          let key := pvKey seedPhrase salt
          if data.length - totalHeaderSize > MAX_DECRYPT_SIZE then
            let (r, evs) := importStreamingPVFile seedPhrase data
            (r, .getSeedPhrase :: .deriveKey :: evs)
          else
            match aesGcmDecrypt key iv (data.drop totalHeaderSize) with
            | .ok content =>
              (.ok (mkImportedFile md content), [.getSeedPhrase, .deriveKey, .decrypt])
            | .error _ =>
              (.error .authenticationFailed, [.getSeedPhrase, .deriveKey, .decrypt])

/-- Model of `importPVFile` (lines 414-510): size-tier dispatch on the TOTAL file
size (lines 417 and 422), then — in the small path — header check, field
extraction, seed phrase + key derivation, and one AEAD decryption of the
ciphertext region. -/
def importPVFile (seedPhrase : String) (data : List Nat) :
    Except PVError ImportedFile × List PVEvent :=
  if data.length > VERY_LARGE_FILE_THRESHOLD then
    importStreamingPVFile seedPhrase data
  else if data.length > LARGE_FILE_THRESHOLD then
    importLargePVFile seedPhrase data
  else if data.take 7 ≠ pvHeaderBytes then (.error .invalidFormat, [])
  else
    let salt := headerSalt data
    let iv := headerIv data
    if data.length < 39 then (.error .truncatedInput, [])
    else
      let mdLen := headerMdLen data
      match parseMetadata ((data.drop 39).take mdLen) with
      | .error e => (.error e, [])
      | .ok md =>
        let key := pvKey seedPhrase salt
        match aesGcmDecrypt key iv (data.drop (39 + mdLen)) with
        | .ok content =>
          (.ok (mkImportedFile md content), [.getSeedPhrase, .deriveKey, .decrypt])
        | .error _ =>
          (.error .authenticationFailed, [.getSeedPhrase, .deriveKey, .decrypt])

/-! ### Import strategy selection -/

/-- The decryption strategies an import can end up in. -/
inductive ImportTier where
  | direct
  | large
  | streaming
  | tooLarge
  deriving DecidableEq, Repr

/-- The strategy the import code selects, as a function of the total
container length and the decoded header length: the dispatch of
`importPVFile` (lines 416-424) composed with the guards of
`importLargePVFile` (lines 518 and 584). -/
def importDecryptStrategy (totalLen headerLen : Nat) : ImportTier :=
  if totalLen > VERY_LARGE_FILE_THRESHOLD then .streaming
  else if totalLen > LARGE_FILE_THRESHOLD then
    if totalLen > BROWSER_DECRYPT_LIMIT then .tooLarge
    else if totalLen - headerLen > MAX_DECRYPT_SIZE then .streaming
    else .large
  else .direct

/-- Modelled from the spec: the selection rule the spec describes — compare
the REMAINING length (total container length minus decoded header length)
against the same boundaries the exporter used. -/
def remainingLengthStrategy (totalLen headerLen : Nat) : ImportTier :=
  if totalLen - headerLen > VERY_LARGE_FILE_THRESHOLD then .streaming
  else if totalLen - headerLen > LARGE_FILE_THRESHOLD then .large
  else .direct

/-! ### Extracting the header fields of a well-formed container -/

theorem length_pvHeaderBytes : pvHeaderBytes.length = 7 := rfl

section ContainerFields

variable {salt iv mdB ct : List Nat}

theorem length_mkContainer (hs : salt.length = 16) (hiv : iv.length = 12) :
    (mkContainer salt iv mdB ct).length = 39 + mdB.length + ct.length := by
  simp [mkContainer, hs, hiv, length_u32le, length_pvHeaderBytes]
  omega

theorem mkContainer_take7 :
    (mkContainer salt iv mdB ct).take 7 = pvHeaderBytes := by
  have h : mkContainer salt iv mdB ct
      = pvHeaderBytes ++ (salt ++ (iv ++ (u32le mdB.length ++ (mdB ++ ct)))) := by
    simp [mkContainer, List.append_assoc]
  rw [h]
  exact List.take_left' length_pvHeaderBytes

theorem headerSalt_mkContainer (hs : salt.length = 16) :
    headerSalt (mkContainer salt iv mdB ct) = salt := by
  have h : mkContainer salt iv mdB ct
      = pvHeaderBytes ++ (salt ++ (iv ++ (u32le mdB.length ++ (mdB ++ ct)))) := by
    simp [mkContainer, List.append_assoc]
  rw [headerSalt, h, List.drop_left' length_pvHeaderBytes]
  exact List.take_left' hs

theorem headerIv_mkContainer (hs : salt.length = 16) (hiv : iv.length = 12) :
    headerIv (mkContainer salt iv mdB ct) = iv := by
  have h : mkContainer salt iv mdB ct
      = (pvHeaderBytes ++ salt) ++ (iv ++ (u32le mdB.length ++ (mdB ++ ct))) := by
    simp [mkContainer, List.append_assoc]
  rw [headerIv, h, List.drop_left' (by simp [length_pvHeaderBytes, hs])]
  exact List.take_left' hiv

theorem headerMdLen_mkContainer (hs : salt.length = 16) (hiv : iv.length = 12)
    (hmd : mdB.length < 4294967296) :
    headerMdLen (mkContainer salt iv mdB ct) = mdB.length := by
  have h : mkContainer salt iv mdB ct
      = (pvHeaderBytes ++ salt ++ iv) ++ (u32le mdB.length ++ (mdB ++ ct)) := by
    simp [mkContainer, List.append_assoc]
  rw [headerMdLen, h, List.drop_left' (by simp [length_pvHeaderBytes, hs, hiv]),
    List.take_left' (length_u32le _)]
  exact leU32_u32le hmd

theorem drop39_mkContainer (hs : salt.length = 16) (hiv : iv.length = 12) :
    (mkContainer salt iv mdB ct).drop 39 = mdB ++ ct := by
  have h : mkContainer salt iv mdB ct
      = (pvHeaderBytes ++ salt ++ iv ++ u32le mdB.length) ++ (mdB ++ ct) := by
    simp [mkContainer, List.append_assoc]
  rw [h, List.drop_left' (by simp [length_pvHeaderBytes, hs, hiv, length_u32le])]

end ContainerFields

/-- Reading a field through the 1 MB header window gives the same bytes as
reading it from the whole buffer, as long as the field lies inside the
window. -/
theorem take_window_field {l : List α} {a b N : Nat} (h : a + b ≤ N) :
    ((l.take N).drop a).take b = (l.drop a).take b := by
  rw [List.drop_take, List.take_take]
  congr 1
  omega

/-! ### Round trip and its failure above the direct tier -/

theorem length_flatten_map_encrypt (key : Key) (iv : List Nat) (cs : List (List Nat)) :
    ((cs.map (aesGcmEncrypt key iv)).flatten).length = cs.flatten.length + 16 * cs.length := by
  induction cs with
  | nil => simp
  | cons x xs ih =>
    simp only [List.map_cons, List.flatten_cons, List.length_append, length_aesGcmEncrypt, ih,
      List.length_cons]
    ring

/-- Importing a direct-tier export returns the original bytes and metadata.
This holds for all contents up to the 50 MB export threshold, whether the
resulting container is routed through the small-file path or the
large-file path (the latter also performs a single whole-ciphertext
decryption). -/
theorem importPV_export_roundtrip_direct (sp : String) (salt iv : List Nat) (file : PVFile)
    (content : List Nat) (hs : salt.length = 16) (hiv : iv.length = 12)
    (hfsize : ¬ file.size > LARGE_FILE_THRESHOLD)
    (hc : content.length ≤ LARGE_FILE_THRESHOLD) :
    (importPVFile sp (exportFileToPV sp salt iv file content)).1 =
      .ok (mkImportedFile (metadataOf file) content) := by
  have hc' : content.length ≤ 52428800 := hc
  set mdB := metadataBytes (metadataOf file) with hmdB
  set key := pvKey sp salt with hkey
  set ct := aesGcmEncrypt key iv content with hct
  have hexp : exportFileToPV sp salt iv file content = mkContainer salt iv mdB ct := by
    rw [exportFileToPV, exportCiphertext, if_neg hfsize]
  rw [hexp]
  set data := mkContainer salt iv mdB ct with hdata
  have hmdlen1 : mdB.length = 1 := length_metadataBytes _
  have hctlen : ct.length = content.length + 16 := length_aesGcmEncrypt _ _ _
  have hlen : data.length = content.length + 56 := by
    rw [hdata, length_mkContainer hs hiv, hmdlen1, hctlen]
    omega
  have hmagic : data.take 7 = pvHeaderBytes := mkContainer_take7
  have hsalt : headerSalt data = salt := headerSalt_mkContainer hs
  have hivf : headerIv data = iv := headerIv_mkContainer hs hiv
  have hmdl : headerMdLen data = 1 := by
    rw [hdata, headerMdLen_mkContainer hs hiv (by omega), hmdlen1]
  have hdrop39 : data.drop 39 = mdB ++ ct := drop39_mkContainer hs hiv
  have hmeta : (data.drop 39).take 1 = mdB := by
    rw [hdrop39, ← hmdlen1]
    exact List.take_left' rfl
  have hparse : parseMetadata ((data.drop 39).take 1) = .ok (metadataOf file) := by
    rw [hmeta, hmdB]
    exact parseMetadata_metadataBytes _
  have hdrop40 : data.drop (39 + 1) = ct := by
    rw [← List.drop_drop, hdrop39]
    exact List.drop_left' hmdlen1
  have hdec : aesGcmDecrypt key iv ct = .ok content := aesGcmDecrypt_encrypt key iv content
  have hmagicW : (data.take 1048576).take 7 = pvHeaderBytes := by
    rw [List.take_take]
    exact hmagic
  have hsaltW : headerSalt (data.take 1048576) = salt := by
    rw [headerSalt, take_window_field (by omega), ← headerSalt]
    exact hsalt
  have hivW : headerIv (data.take 1048576) = iv := by
    rw [headerIv, take_window_field (by omega), ← headerIv]
    exact hivf
  have hmdlW : headerMdLen (data.take 1048576) = 1 := by
    rw [headerMdLen, take_window_field (by omega), ← headerMdLen]
    exact hmdl
  have hmetaW : ((data.take 1048576).drop 39).take 1 = mdB := by
    rw [take_window_field (by omega)]
    exact hmeta
  have hparseW : parseMetadata (((data.take 1048576).drop 39).take 1) = .ok (metadataOf file) := by
    rw [hmetaW, hmdB]
    exact parseMetadata_metadataBytes _
  by_cases hbig : data.length > LARGE_FILE_THRESHOLD
  · -- routed to `importLargePVFile`; still a single whole-ciphertext decryption
    rw [importPVFile,
      if_neg (by simp only [VERY_LARGE_FILE_THRESHOLD]; omega),
      if_pos hbig, importLargePVFile,
      if_neg (by simp only [BROWSER_DECRYPT_LIMIT]; omega)]
    simp only [hmagicW, ne_eq, not_true_eq_false, if_false, hsaltW, hivW, hmdlW, hparseW,
      if_neg (show ¬ data.length < 39 by omega)]
    rw [if_neg (by simp only [MAX_DECRYPT_SIZE]; omega), hdrop40, hdec]
  · -- small path
    rw [importPVFile,
      if_neg (by simp only [VERY_LARGE_FILE_THRESHOLD]; omega),
      if_neg hbig]
    simp only [hmagic, ne_eq, not_true_eq_false, if_false, hsalt, hivf, hmdl, hparse,
      if_neg (show ¬ data.length < 39 by omega)]
    rw [hdrop40, hdec]

/-- Exporting any file over the 50 MB threshold chunks the plaintext into
1 MB pieces and concatenates one AEAD output per chunk, but every import
path decrypts the whole ciphertext region with a single AEAD call, so the
authentication tag never verifies: `decode(encode(B, S))` fails for every
such `B` even under the correct secret.  `hbound` keeps the container in
the large-import tier (any content up to about 113 MB satisfies it). -/
theorem importPV_export_chunked_authfail (sp : String) (salt iv : List Nat)
    (file : PVFile) (content : List Nat) (hs : salt.length = 16) (hiv : iv.length = 12)
    (hfsize : file.size > LARGE_FILE_THRESHOLD)
    (hclarge : content.length > LARGE_FILE_THRESHOLD)
    (hbound : 17 * content.length + 40 ≤ VERY_LARGE_FILE_THRESHOLD) :
    (importPVFile sp (exportFileToPV sp salt iv file content)).1 =
      .error .authenticationFailed := by
  have hclarge' : content.length > 52428800 := hclarge
  have hbound' : 17 * content.length + 40 ≤ 1932735283 := hbound
  set mdB := metadataBytes (metadataOf file) with hmdB
  set key := pvKey sp salt with hkey
  set cs := chunkList CHUNK_SIZE content with hcs
  set ct := ((cs.map (aesGcmEncrypt key iv)).flatten) with hct
  have hexp : exportFileToPV sp salt iv file content = mkContainer salt iv mdB ct := by
    rw [exportFileToPV, exportCiphertext, if_pos hfsize]
  rw [hexp]
  set data := mkContainer salt iv mdB ct with hdata
  have hmdlen1 : mdB.length = 1 := length_metadataBytes _
  have hchunk : (CHUNK_SIZE : Nat) ≠ 0 := by simp [CHUNK_SIZE]
  have hcsflat : cs.flatten = content := flatten_chunkList hchunk content
  have hnc2 : 2 ≤ cs.length := by
    refine two_le_chunkList_length hchunk ?_
    simp only [CHUNK_SIZE]
    omega
  have hncle : cs.length ≤ content.length := chunkList_length_le hchunk content
  have hctlen : ct.length = content.length + 16 * cs.length := by
    rw [hct, length_flatten_map_encrypt, hcsflat]
  have hlen : data.length = 40 + ct.length := by
    rw [hdata, length_mkContainer hs hiv, hmdlen1]
  have hmagic : data.take 7 = pvHeaderBytes := mkContainer_take7
  have hsalt : headerSalt data = salt := headerSalt_mkContainer hs
  have hivf : headerIv data = iv := headerIv_mkContainer hs hiv
  have hmdl : headerMdLen data = 1 := by
    rw [hdata, headerMdLen_mkContainer hs hiv (by omega), hmdlen1]
  have hdrop39 : data.drop 39 = mdB ++ ct := drop39_mkContainer hs hiv
  have hmeta : (data.drop 39).take 1 = mdB := by
    rw [hdrop39, ← hmdlen1]
    exact List.take_left' rfl
  have hdrop40 : data.drop (39 + 1) = ct := by
    rw [← List.drop_drop, hdrop39]
    exact List.drop_left' hmdlen1
  have hdec : aesGcmDecrypt key iv ct = .error .authenticationFailed :=
    aesGcmDecrypt_flatten_encrypt_error key iv hnc2
  have hmagicW : (data.take 1048576).take 7 = pvHeaderBytes := by
    rw [List.take_take]
    exact hmagic
  have hsaltW : headerSalt (data.take 1048576) = salt := by
    rw [headerSalt, take_window_field (by omega), ← headerSalt]
    exact hsalt
  have hivW : headerIv (data.take 1048576) = iv := by
    rw [headerIv, take_window_field (by omega), ← headerIv]
    exact hivf
  have hmdlW : headerMdLen (data.take 1048576) = 1 := by
    rw [headerMdLen, take_window_field (by omega), ← headerMdLen]
    exact hmdl
  have hmetaW : ((data.take 1048576).drop 39).take 1 = mdB := by
    rw [take_window_field (by omega)]
    exact hmeta
  have hparseW : parseMetadata (((data.take 1048576).drop 39).take 1) = .ok (metadataOf file) := by
    rw [hmetaW, hmdB]
    exact parseMetadata_metadataBytes _
  rw [importPVFile,
    if_neg (by simp only [VERY_LARGE_FILE_THRESHOLD]; omega),
    if_pos (show data.length > LARGE_FILE_THRESHOLD by
      simp only [LARGE_FILE_THRESHOLD]; omega),
    importLargePVFile,
    if_neg (by simp only [BROWSER_DECRYPT_LIMIT]; omega)]
  simp only [hmagicW, ne_eq, not_true_eq_false, if_false, hsaltW, hivW, hmdlW, hparseW,
    if_neg (show ¬ data.length < 39 by omega)]
  rw [if_neg (by simp only [MAX_DECRYPT_SIZE]; omega), hdrop40, hdec]

/-! ### Claim C1 -/

/-- A plaintext one byte over the 50 MB direct-tier threshold. -/
def c1Content : List Nat := List.replicate 52428801 0

/-- The file record of that plaintext ("big.bin", 52428801 bytes). -/
def c1File : PVFile :=
  { name := [98, 105, 103, 46, 98, 105, 110], fileType := [98, 105, 110],
    size := 52428801, lastModified := 1700000000000 }

/-- C1: the round-trip property fails on the code one byte above the
direct tier: exporting a 52428801-byte plaintext produces 51 chunked AEAD
outputs under one base IV, and importing that container with the SAME
secret phrase decrypts the whole ciphertext region in a single AEAD call,
which fails authentication instead of returning the original bytes.  (The
direct tier does round-trip: see `importPV_export_roundtrip_direct`.) -/
theorem c1_roundtrip_fails_above_direct_tier :
    (importPVFile "test phrase"
        (exportFileToPV "test phrase" (List.replicate 16 1) (List.replicate 12 2)
          c1File c1Content)).1 = .error .authenticationFailed := by
  apply importPV_export_chunked_authfail
  · simp
  · simp
  · decide
  · show c1Content.length > LARGE_FILE_THRESHOLD
    rw [c1Content, List.length_replicate]
    decide
  · show 17 * c1Content.length + 40 ≤ VERY_LARGE_FILE_THRESHOLD
    rw [c1Content, List.length_replicate]
    decide

/-! ### Claim C2 -/

/-- No authentication tag is all-zero bytes (the head of a tag is a
successor). -/
theorem tagFn_ne_replicate_zero (key : Key) (iv m : List Nat) :
    List.replicate 16 0 ≠ tagFn key iv m := by
  intro h
  rw [tagFn, show (16 : Nat) = 15 + 1 from rfl, List.replicate_succ] at h
  injection h with h1 h2
  exact Nat.succ_ne_zero _ h1.symm

/-- A concrete at-rest key (raw key bytes). -/
def atRestKeyExample : Key := ([7, 7, 7, 7], [])

/-- An at-rest blob (12-byte IV followed by 16 bytes) whose tag does not
verify under `atRestKeyExample`. -/
def c2Blob : List Nat := List.replicate 12 0 ++ List.replicate 16 0

/-- C2: the at-rest decryption step used when preparing a file for PV
export silently converts a failed authenticated decryption into returning
the original, still-encrypted bytes: on `c2Blob` the underlying AES-GCM
decryption fails authentication, yet `decryptFileContent` returns its
input unchanged instead of reporting a failure (pv-format.ts line 381). -/
theorem c2_authfail_swallowed_into_original_bytes :
    decryptFileContent atRestKeyExample c2Blob = c2Blob ∧
      aesGcmDecrypt atRestKeyExample (c2Blob.take 12) (c2Blob.drop 12) =
        .error .authenticationFailed := by
  have h1 : c2Blob.take 12 = List.replicate 12 0 := List.take_left' (by simp)
  have h2 : c2Blob.drop 12 = List.replicate 16 0 := List.drop_left' (by simp)
  have h3 : aesGcmDecrypt atRestKeyExample (List.replicate 12 0) (List.replicate 16 0) =
      .error .authenticationFailed := by
    rw [aesGcmDecrypt, if_neg (by simp)]
    have h0 : (List.replicate 16 (0 : Nat)).length - 16 = 0 := by simp
    rw [h0, List.drop_zero, List.take_zero, if_neg (tagFn_ne_replicate_zero _ _ _)]
  refine ⟨?_, by rw [h1, h2]; exact h3⟩
  rw [decryptFileContent, h1, h2, h3]

/-! ### Claim C4 -/

/-- C4 counterexample: a container of total length 52428830 with a 39-byte
header.  The code routes it to the large-file path because the TOTAL
length exceeds 50 MB, while the remaining-length rule the spec describes
(total minus header = 52428791 ≤ 50 MB) selects the direct path. -/
theorem c4_total_vs_remaining_counterexample :
    importDecryptStrategy 52428830 39 = .large ∧
      remainingLengthStrategy 52428830 39 = .direct ∧
      importDecryptStrategy 52428830 39 ≠ remainingLengthStrategy 52428830 39 := by
  decide

/-- C4 amended: the import routine selects its decryption strategy by
comparing the TOTAL container length against the tier constants; the only
remaining-length comparison (total minus header versus the 1.8 GB decrypt
ceiling, line 584) sits in a branch where it can never fire, so the
selection is independent of the header length. -/
theorem c4_strategy_depends_only_on_total_length (totalLen headerLen : Nat) :
    importDecryptStrategy totalLen headerLen =
      (if totalLen > VERY_LARGE_FILE_THRESHOLD then .streaming
       else if totalLen > LARGE_FILE_THRESHOLD then .large
       else .direct) := by
  simp only [importDecryptStrategy, VERY_LARGE_FILE_THRESHOLD, LARGE_FILE_THRESHOLD,
    BROWSER_DECRYPT_LIMIT, MAX_DECRYPT_SIZE]
  split_ifs <;> first | rfl | omega

/-! ### Claim C5 -/

/-- C5: the per-segment nonce keeps the first 8 bytes and the length of
the 12-byte base IV and XORs the last 4 bytes with the big-endian segment
index, so two distinct segment indices below 2^32 always yield distinct
nonces under a fixed base IV. -/
theorem c5_deriveSegmentIv_injective (iv : List Nat) (hiv : iv.length = 12)
    (i j : Nat) (hi : i < 4294967296) (hj : j < 4294967296) (hij : i ≠ j) :
    (deriveSegmentIv iv i).length = 12 ∧
      (deriveSegmentIv iv i).take 8 = iv.take 8 ∧
      deriveSegmentIv iv i ≠ deriveSegmentIv iv j := by
  have hxor : ∀ a x y : Nat, a ^^^ x = a ^^^ y → x = y := by
    intro a x y h
    have h2 := congrArg (fun z => a ^^^ z) h
    simpa [← Nat.xor_assoc, Nat.xor_self, Nat.zero_xor] using h2
  have hlen4 : (iv.drop 8).length = 4 := by simp [hiv]
  obtain ⟨a, b, c, d, hrest⟩ : ∃ a b c d, iv.drop 8 = [a, b, c, d] := by
    rcases h8 : iv.drop 8 with _ | ⟨a, _ | ⟨b, _ | ⟨c, _ | ⟨d, rest⟩⟩⟩⟩ <;>
      rw [h8] at hlen4 <;> simp at hlen4
    exact ⟨a, b, c, d, by simp [hlen4]⟩
  have h84 : iv.length - 4 = 8 := by omega
  refine ⟨?_, ?_, ?_⟩
  · simp [deriveSegmentIv, h84, hrest, hiv]
  · simp only [deriveSegmentIv, h84, hrest]
    have h8 : (iv.take 8).length = 8 := by simp [hiv]
    rw [List.take_left' h8]
  · intro heq
    simp only [deriveSegmentIv, h84, hrest, List.zipWith_cons_cons, List.zipWith_nil_left] at heq
    have h4 := List.append_cancel_left heq
    simp only [List.cons.injEq, and_true] at h4
    obtain ⟨e0, e1, e2, e3⟩ := h4
    have d0 := hxor _ _ _ e0
    have d1 := hxor _ _ _ e1
    have d2 := hxor _ _ _ e2
    have d3 := hxor _ _ _ e3
    omega

/-- Witness for C5 at the all-zero base IV and segment indices 0 and 1. -/
theorem c5_deriveSegmentIv_injective_witness :
    (List.replicate 12 0 : List Nat).length = 12 ∧ (0 : Nat) < 4294967296 ∧
      (1 : Nat) < 4294967296 ∧ (0 : Nat) ≠ 1 ∧
      deriveSegmentIv (List.replicate 12 0) 0 ≠ deriveSegmentIv (List.replicate 12 0) 1 :=
  ⟨by decide, by decide, by decide, by decide,
    (c5_deriveSegmentIv_injective (List.replicate 12 0) (by decide) 0 1
      (by decide) (by decide) (by decide)).2.2⟩

/-! ### Claim C6 -/

/-- C6: every exported container has the exact layout
magic(7) ++ salt(16) ++ iv(12) ++ metadataLength(4) ++ metadata ++ ciphertext,
the stored metadata length decodes to the metadata block's length, and the
total size is 7+16+12+4+metadataLength+ciphertext-length. -/
theorem c6_container_layout (sp : String) (salt iv : List Nat) (file : PVFile)
    (content : List Nat) (hs : salt.length = 16) (hiv : iv.length = 12) :
    exportFileToPV sp salt iv file content =
      pvHeaderBytes ++ salt ++ iv ++
        u32le (metadataBytes (metadataOf file)).length ++
        metadataBytes (metadataOf file) ++
        exportCiphertext (pvKey sp salt) iv file.size content ∧
    (exportFileToPV sp salt iv file content).take 7 = pvHeaderBytes ∧
    headerSalt (exportFileToPV sp salt iv file content) = salt ∧
    headerIv (exportFileToPV sp salt iv file content) = iv ∧
    headerMdLen (exportFileToPV sp salt iv file content) =
      (metadataBytes (metadataOf file)).length ∧
    ((exportFileToPV sp salt iv file content).drop 39).take
        (metadataBytes (metadataOf file)).length = metadataBytes (metadataOf file) ∧
    (exportFileToPV sp salt iv file content).length =
      7 + 16 + 12 + 4 + (metadataBytes (metadataOf file)).length +
        (exportCiphertext (pvKey sp salt) iv file.size content).length := by
  have hmd1 : (metadataBytes (metadataOf file)).length = 1 := length_metadataBytes _
  have hexp : exportFileToPV sp salt iv file content =
      mkContainer salt iv (metadataBytes (metadataOf file))
        (exportCiphertext (pvKey sp salt) iv file.size content) := rfl
  refine ⟨rfl, ?_, ?_, ?_, ?_, ?_, ?_⟩
  · rw [hexp]
    exact mkContainer_take7
  · rw [hexp]
    exact headerSalt_mkContainer hs
  · rw [hexp]
    exact headerIv_mkContainer hs hiv
  · rw [hexp]
    exact headerMdLen_mkContainer hs hiv (by omega)
  · rw [hexp, drop39_mkContainer hs hiv]
    exact List.take_left' rfl
  · rw [hexp, length_mkContainer hs hiv]

/-- Witness for C6 at a concrete 3-byte file. -/
theorem c6_container_layout_witness :
    (List.replicate 16 1 : List Nat).length = 16 ∧
      (List.replicate 12 2 : List Nat).length = 12 ∧
      headerMdLen (exportFileToPV "test phrase" (List.replicate 16 1) (List.replicate 12 2)
          ⟨[97], [98], 3, 5⟩ [10, 20, 30]) =
        (metadataBytes (metadataOf ⟨[97], [98], 3, 5⟩)).length ∧
      (exportFileToPV "test phrase" (List.replicate 16 1) (List.replicate 12 2)
          ⟨[97], [98], 3, 5⟩ [10, 20, 30]).take 7 = pvHeaderBytes :=
  ⟨by decide, by decide,
    (c6_container_layout "test phrase" _ _ _ _ (by decide) (by decide)).2.2.2.2.1,
    (c6_container_layout "test phrase" _ _ _ _ (by decide) (by decide)).2.1⟩

/-! ### Claim C7 -/

/-- C7 counterexample: the claim says key derivation throws whenever the
salt is not exactly 16 bytes; but `deriveKeyFromSeedPhrase` contains no
validation at all, and deriving with an 8-byte salt succeeds. -/
theorem c7_derivation_accepts_short_salt :
    (List.replicate 8 0 : List Nat).length ≠ 16 ∧
      deriveKeyFromSeedPhrase "test phrase" (List.replicate 8 0) =
        .ok (pvKey "test phrase" (List.replicate 8 0)) :=
  ⟨by decide, rfl⟩

/-- C7 amended: key derivation performs no input validation; for any
non-empty secret it succeeds with the key determined by (secret, salt),
whatever the salt length (PBKDF2 accepts arbitrary salts, and the source
adds no 16-byte check). -/
theorem c7_amended_derivation_never_throws (sp : String) (salt : List Nat)
    (h : sp ≠ "") :
    deriveKeyFromSeedPhrase sp salt = .ok (pvKey sp salt) := rfl

/-- Witness for the amended C7 at a non-empty secret and an 8-byte salt. -/
theorem c7_amended_derivation_never_throws_witness :
    ("test phrase" ≠ "") ∧
      deriveKeyFromSeedPhrase "test phrase" (List.replicate 8 0) =
        .ok (pvKey "test phrase" (List.replicate 8 0)) :=
  ⟨by decide, c7_amended_derivation_never_throws "test phrase" (List.replicate 8 0) (by decide)⟩

/-! ### Claim C8 -/

/-- C8: every import path checks the 7-byte magic tag first; an input
whose first 7 bytes are not the tag is rejected as invalid format with an
empty effect trace — no seed-phrase retrieval, no key derivation and no
decryption happen. -/
theorem c8_bad_magic_rejected_before_any_effect (sp : String) (data : List Nat)
    (h : data.take 7 ≠ pvHeaderBytes) :
    importPVFile sp data = (.error .invalidFormat, []) := by
  have hW : (data.take 1048576).take 7 = data.take 7 := by
    rw [List.take_take]
    norm_num
  rw [importPVFile]
  by_cases h1 : data.length > VERY_LARGE_FILE_THRESHOLD
  · rw [if_pos h1]
    simp only [importStreamingPVFile, hW]
    rw [if_pos h]
  · rw [if_neg h1]
    by_cases h2 : data.length > LARGE_FILE_THRESHOLD
    · rw [if_pos h2]
      simp only [importLargePVFile, hW]
      rw [if_neg (by
          simp only [VERY_LARGE_FILE_THRESHOLD] at h1
          simp only [BROWSER_DECRYPT_LIMIT]
          omega),
        if_pos h]
    · rw [if_neg h2, if_pos h]

/-- Witness for C8 at the 1-byte input `[0]`. -/
theorem c8_bad_magic_rejected_before_any_effect_witness :
    ([0] : List Nat).take 7 ≠ pvHeaderBytes ∧
      importPVFile "" [0] = (.error .invalidFormat, []) :=
  ⟨by decide, c8_bad_magic_rejected_before_any_effect "" [0] (by decide)⟩

/-! ## The IndexedDB object store (src/lib/db.ts) -/

/-- A record of the `files` store (a `FileItem` minus its key). -/
structure DBFile where
  name : List Nat
  fileType : List Nat
  size : Nat
  lastModified : Nat
  content : List Nat
  folderId : Option Nat
  encrypted : Bool
  deriving DecidableEq, Repr

/-- A record of the `folders` store. -/
structure DBFolder where
  name : List Nat
  parentId : Option Nat
  createdAt : Nat
  deriving DecidableEq, Repr

inductive TrashKind where
  | file
  | folder
  deriving DecidableEq, Repr

/-- A record of the `trash` store (a `TrashItem` minus its key).  File
trash items carry the full payload of the deleted file (db.ts lines
166-176); folder trash items carry name/parentId with `content: null`,
`size: 0`, `fileType: "folder"` (lines 418-429). -/
structure DBTrashItem where
  originalId : Nat
  kind : TrashKind
  name : List Nat
  content : Option (List Nat)
  size : Nat
  fileType : List Nat
  folderId : Option Nat
  parentId : Option Nat
  deletedAt : Nat
  encrypted : Bool
  deriving DecidableEq, Repr

/-- The three object stores, as key/record association lists, plus the
IndexedDB auto-increment key generators (one per store; a generator only
counts up, also across deletes and clears, so keys are never reused). -/
structure DB where
  files : List (Nat × DBFile)
  folders : List (Nat × DBFolder)
  trash : List (Nat × DBTrashItem)
  nextFileId : Nat
  nextFolderId : Nat
  nextTrashId : Nat
  deriving DecidableEq, Repr

/-- A fresh database (IndexedDB key generators start at 1). -/
def emptyDB : DB := ⟨[], [], [], 1, 1, 1⟩

/-- Model of `store.get(id)`. -/
def findRec (l : List (Nat × α)) (id : Nat) : Option (Nat × α) :=
  l.find? (fun p => p.1 == id)

/-- Model of `store.delete(id)`. -/
def eraseRec (l : List (Nat × α)) (id : Nat) : List (Nat × α) :=
  l.filter (fun p => p.1 != id)

/-- Model of `addFile` / `saveFile` (db.ts lines 69-90 and 795-816): `store.add`
under the auto-increment key; returns the new key. -/
def addFile (f : DBFile) (s : DB) : DB × Nat :=
  ({ s with files := s.files ++ [(s.nextFileId, f)], nextFileId := s.nextFileId + 1 },
   s.nextFileId)

/-- The trash record `deleteFile` builds from a file record (lines
166-176). -/
def trashOfFile (id : Nat) (f : DBFile) (now : Nat) : DBTrashItem :=
  { originalId := id, kind := .file, name := f.name, content := some f.content,
    size := f.size, fileType := f.fileType, folderId := f.folderId,
    parentId := none, deletedAt := now, encrypted := f.encrypted }

/-- Model of `deleteFile` (lines 151-210): in ONE readwrite transaction spanning
both stores, add the full payload to `trash` and delete the record from
`files`; "File not found" rejects without modifying anything. -/
def deleteFile (fileId : Nat) (now : Nat) (s : DB) : Except PVError DB :=
  match findRec s.files fileId with
  | none => .error .recordNotFound
  | some (_, f) =>
    .ok { s with
      trash := s.trash ++ [(s.nextTrashId, trashOfFile fileId f now)],
      nextTrashId := s.nextTrashId + 1,
      files := eraseRec s.files fileId }

/-- Model of `permanentlyDeleteFile` (lines 213-234): plain `store.delete`, which
succeeds whether or not the key is present. -/
def permanentlyDeleteFile (fileId : Nat) (s : DB) : DB :=
  { s with files := eraseRec s.files fileId }

/-- Model of `updateFileName` (lines 236-271): get, mutate `name`, `put` back under
the same key. -/
def updateFileName (fileId : Nat) (newName : List Nat) (s : DB) : Except PVError DB :=
  match findRec s.files fileId with
  | none => .error .recordNotFound
  | some _ =>
    .ok { s with files := s.files.map (fun p =>
      if p.1 == fileId then (p.1, { p.2 with name := newName }) else p) }

/-- Model of `moveFile` (lines 304-339): get, mutate `folderId`, `put` back. -/
def moveFile (fileId : Nat) (newFolderId : Option Nat) (s : DB) : Except PVError DB :=
  match findRec s.files fileId with
  | none => .error .recordNotFound
  | some _ =>
    .ok { s with files := s.files.map (fun p =>
      if p.1 == fileId then (p.1, { p.2 with folderId := newFolderId }) else p) }

/-- Model of `createFolder` (lines 342-369). -/
def createFolder (name : List Nat) (parentId : Option Nat) (now : Nat) (s : DB) :
    DB × Nat :=
  ({ s with
      folders := s.folders ++ [(s.nextFolderId, DBFolder.mk name parentId now)],
      nextFolderId := s.nextFolderId + 1 },
   s.nextFolderId)

/-- The trash record `deleteFolder` builds for the folder itself (lines
418-429); `fileType` is the literal string "folder". -/
def trashOfFolder (id : Nat) (f : DBFolder) (now : Nat) : DBTrashItem :=
  { originalId := id, kind := .folder, name := f.name, content := none,
    size := 0, fileType := [102, 111, 108, 100, 101, 114], folderId := none,
    parentId := f.parentId, deletedAt := now, encrypted := false }

/-- Successive trash records (with consecutive auto-increment keys) for
the files directly inside a deleted folder (lines 441-456). -/
def trashEntriesFor (startId now : Nat) : List (Nat × DBFile) → List (Nat × DBTrashItem)
  | [] => []
  | (id, f) :: rest => (startId, trashOfFile id f now) :: trashEntriesFor (startId + 1) now rest

/-- Model of `deleteFolder` (lines 401-475): one transaction trashes the folder
record and every file whose `folderId` is the folder, deletes those files
and the folder; subfolders are left untouched. -/
def deleteFolder (folderId : Nat) (now : Nat) (s : DB) : Except PVError DB :=
  match findRec s.folders folderId with
  | none => .error .recordNotFound
  | some (_, folder) =>
    let inFolder := s.files.filter (fun p => p.2.folderId == some folderId)
    .ok { s with
      folders := eraseRec s.folders folderId,
      files := s.files.filter (fun p => !(p.2.folderId == some folderId)),
      trash := s.trash ++ (s.nextTrashId, trashOfFolder folderId folder now)
        :: trashEntriesFor (s.nextTrashId + 1) now inFolder,
      nextTrashId := s.nextTrashId + 1 + inFolder.length }

/-- Model of `restoreFromTrash` (lines 507-561): recreate the item as a FRESH
active record — files get `lastModified: new Date()` (line 527), folders
get `createdAt: new Date()` (line 539) — and delete the trash entry, all
in one transaction. -/
def restoreFromTrash (trashId : Nat) (now : Nat) (s : DB) : Except PVError DB :=
  match findRec s.trash trashId with
  | none => .error .recordNotFound
  | some (_, t) =>
    match t.kind with
    | .file =>
      .ok { s with
        files := s.files ++ [(s.nextFileId,
          { name := t.name, fileType := t.fileType, size := t.size,
            lastModified := now, content := t.content.getD [],
            folderId := t.folderId, encrypted := t.encrypted })],
        nextFileId := s.nextFileId + 1,
        trash := eraseRec s.trash trashId }
    | .folder =>
      .ok { s with
        folders := s.folders ++ [(s.nextFolderId, DBFolder.mk t.name t.parentId now)],
        nextFolderId := s.nextFolderId + 1,
        trash := eraseRec s.trash trashId }

/-- Model of `deleteFromTrash` (lines 563-584), the purge operation. -/
def deleteFromTrash (trashId : Nat) (s : DB) : DB :=
  { s with trash := eraseRec s.trash trashId }

/-- Model of `emptyTrash` (lines 586-607). -/
def emptyTrash (s : DB) : DB :=
  { s with trash := [] }

/-- Model of `clearAllData` (lines 661-693); `store.clear()` does not reset the key
generators. -/
def clearAllData (s : DB) : DB :=
  { s with files := [], folders := [], trash := [] }

/-- The result record of `getStorageStats` (lines 610-659). -/
structure StorageStats where
  used : Nat
  total : Nat
  fileCount : Nat
  trashSize : Nat
  trashCount : Nat
  deriving DecidableEq, Repr

/-- Model of `getStorageStats` (lines 610-659): reduce over `getAll()` of the file
store and the trash store. -/
def getStorageStats (s : DB) : StorageStats :=
  let totalSize := s.files.foldl (fun acc p => acc + p.2.size) 0
  let trashSize := s.trash.foldl (fun acc p => acc + p.2.size) 0
  { used := totalSize,
    total := max ((totalSize + trashSize) * 2) (1024 * 1024 * 50),
    fileCount := s.files.length,
    trashSize := trashSize,
    trashCount := s.trash.length }

/-- Every modelled mutating store operation. -/
inductive DBOp where
  | addFile (f : DBFile)
  | deleteFile (fileId now : Nat)
  | permanentlyDeleteFile (fileId : Nat)
  | updateFileName (fileId : Nat) (newName : List Nat)
  | moveFile (fileId : Nat) (newFolderId : Option Nat)
  | createFolder (name : List Nat) (parentId : Option Nat) (now : Nat)
  | deleteFolder (folderId now : Nat)
  | restoreFromTrash (trashId now : Nat)
  | deleteFromTrash (trashId : Nat)
  | emptyTrash
  | clearAllData
  deriving DecidableEq, Repr

/-- One operation as a state transition; a rejected promise ("not found")
leaves the stores unchanged. -/
def applyOp (op : DBOp) (s : DB) : DB :=
  match op with
  | .addFile f => (addFile f s).1
  | .deleteFile id now =>
    match deleteFile id now s with
    | .ok s' => s'
    | .error _ => s
  | .permanentlyDeleteFile id => permanentlyDeleteFile id s
  | .updateFileName id newName =>
    match updateFileName id newName s with
    | .ok s' => s'
    | .error _ => s
  | .moveFile id newFolderId =>
    match moveFile id newFolderId s with
    | .ok s' => s'
    | .error _ => s
  | .createFolder name parentId now => (createFolder name parentId now s).1
  | .deleteFolder id now =>
    match deleteFolder id now s with
    | .ok s' => s'
    | .error _ => s
  | .restoreFromTrash id now =>
    match restoreFromTrash id now s with
    | .ok s' => s'
    | .error _ => s
  | .deleteFromTrash id => deleteFromTrash id s
  | .emptyTrash => emptyTrash s
  | .clearAllData => clearAllData s

/-- A sequence of operations applied in order. -/
def applyOps (ops : List DBOp) (s : DB) : DB :=
  ops.foldl (fun s op => applyOp op s) s

/-- Per-store invariant: every key is below the store's auto-increment
generator (so a deleted key can never be handed out again) and keys are
unique. -/
def StInv (l : List (Nat × α)) (next : Nat) : Prop :=
  (∀ p ∈ l, p.1 < next) ∧ (l.map Prod.fst).Nodup

/-- Trash/active exclusivity: a trashed item of kind `k` records an
original id that is below the active store's generator and is NOT a
current key of the active store — the logical item lives in exactly one of
the two tables. -/
def CrossInv (tr : List (Nat × DBTrashItem)) (k : TrashKind)
    (activeKeys : List Nat) (next : Nat) : Prop :=
  ∀ p ∈ tr, p.2.kind = k → p.2.originalId < next ∧ p.2.originalId ∉ activeKeys

/-- The full store invariant. -/
def Inv (s : DB) : Prop :=
  StInv s.files s.nextFileId ∧ StInv s.folders s.nextFolderId ∧
  StInv s.trash s.nextTrashId ∧
  CrossInv s.trash .file (s.files.map Prod.fst) s.nextFileId ∧
  CrossInv s.trash .folder (s.folders.map Prod.fst) s.nextFolderId

instance (l : List (Nat × α)) (next : Nat) : Decidable (StInv l next) := by
  unfold StInv
  infer_instance

instance (tr : List (Nat × DBTrashItem)) (k : TrashKind) (ak : List Nat) (n : Nat) :
    Decidable (CrossInv tr k ak n) := by
  unfold CrossInv
  infer_instance

instance (s : DB) : Decidable (Inv s) := by
  unfold Inv
  infer_instance

/-! ### Invariant preservation helpers -/

theorem mem_of_mem_eraseRec {l : List (Nat × α)} {p : Nat × α} {id : Nat}
    (h : p ∈ eraseRec l id) : p ∈ l :=
  (List.mem_filter.mp h).1

theorem ne_of_mem_eraseRec {l : List (Nat × α)} {p : Nat × α} {id : Nat}
    (h : p ∈ eraseRec l id) : p.1 ≠ id :=
  bne_iff_ne.mp (List.mem_filter.mp h).2

theorem findRec_some {l : List (Nat × α)} {p : Nat × α} {id : Nat}
    (h : findRec l id = some p) : p ∈ l ∧ p.1 = id := by
  refine ⟨List.mem_of_find?_eq_some h, ?_⟩
  have := List.find?_some h
  simpa using this

theorem stInv_filter {l : List (Nat × α)} {next : Nat} (f : Nat × α → Bool)
    (h : StInv l next) : StInv (l.filter f) next :=
  ⟨fun p hp => h.1 p (List.mem_filter.mp hp).1,
   h.2.sublist ((List.filter_sublist l).map Prod.fst)⟩

theorem stInv_eraseRec {l : List (Nat × α)} {next : Nat} (id : Nat)
    (h : StInv l next) : StInv (eraseRec l id) next :=
  stInv_filter _ h

theorem stInv_mono {l : List (Nat × α)} {n m : Nat} (hnm : n ≤ m)
    (h : StInv l n) : StInv l m :=
  ⟨fun p hp => lt_of_lt_of_le (h.1 p hp) hnm, h.2⟩

theorem stInv_append_fresh {l : List (Nat × α)} {n : Nat} (x : α)
    (h : StInv l n) : StInv (l ++ [(n, x)]) (n + 1) := by
  constructor
  · intro p hp
    rcases List.mem_append.mp hp with h1 | h2
    · exact Nat.lt_succ_of_lt (h.1 p h1)
    · rw [List.mem_singleton.mp h2]
      exact Nat.lt_succ_self n
  · rw [List.map_append, List.nodup_append]
    refine ⟨h.2, by simp, ?_⟩
    intro a ha hb
    rcases List.mem_map.mp ha with ⟨p, hp, rfl⟩
    simp only [List.map_cons, List.map_nil, List.mem_singleton] at hb
    exact absurd hb (Nat.ne_of_lt (h.1 p hp))

theorem keys_map_fst_eq (l : List (Nat × α)) (F : Nat × α → Nat × α)
    (hF : ∀ p, (F p).1 = p.1) :
    (l.map F).map Prod.fst = l.map Prod.fst := by
  rw [List.map_map]
  apply List.map_congr_left
  intro p hp
  exact hF p

theorem stInv_map_keepKeys {l : List (Nat × α)} {next : Nat}
    (F : Nat × α → Nat × α) (hF : ∀ p, (F p).1 = p.1) (h : StInv l next) :
    StInv (l.map F) next := by
  constructor
  · intro p hp
    rcases List.mem_map.mp hp with ⟨q, hq, rfl⟩
    rw [hF]
    exact h.1 q hq
  · rw [keys_map_fst_eq l F hF]
    exact h.2

theorem trashEntriesFor_bounds :
    ∀ (l : List (Nat × DBFile)) (i now : Nat), ∀ p ∈ trashEntriesFor i now l,
      i ≤ p.1 ∧ p.1 < i + l.length := by
  intro l
  induction l with
  | nil =>
    intro i now p hp
    simp [trashEntriesFor] at hp
  | cons q rest ih =>
    intro i now p hp
    rcases q with ⟨id, f⟩
    rw [trashEntriesFor] at hp
    rcases List.mem_cons.mp hp with rfl | h2
    · simp
    · have := ih (i + 1) now p h2
      simp only [List.length_cons]
      omega

theorem trashEntriesFor_keys_nodup :
    ∀ (l : List (Nat × DBFile)) (i now : Nat),
      ((trashEntriesFor i now l).map Prod.fst).Nodup := by
  intro l
  induction l with
  | nil =>
    intro i now
    simp [trashEntriesFor]
  | cons q rest ih =>
    intro i now
    rcases q with ⟨id, f⟩
    rw [trashEntriesFor]
    rw [List.map_cons, List.nodup_cons]
    refine ⟨?_, ih (i + 1) now⟩
    intro hmem
    rcases List.mem_map.mp hmem with ⟨p, hp, hpi⟩
    have := (trashEntriesFor_bounds rest (i + 1) now p hp).1
    omega

theorem mem_trashEntriesFor :
    ∀ (l : List (Nat × DBFile)) (i now : Nat), ∀ p ∈ trashEntriesFor i now l,
      ∃ q ∈ l, p.2 = trashOfFile q.1 q.2 now := by
  intro l
  induction l with
  | nil =>
    intro i now p hp
    simp [trashEntriesFor] at hp
  | cons q rest ih =>
    intro i now p hp
    rcases q with ⟨id, f⟩
    rw [trashEntriesFor] at hp
    rcases List.mem_cons.mp hp with rfl | h2
    · exact ⟨(id, f), List.mem_cons_self _ _, rfl⟩
    · rcases ih (i + 1) now p h2 with ⟨r, hr, hpr⟩
      exact ⟨r, List.mem_cons_of_mem _ hr, hpr⟩

theorem crossInv_sub {tr : List (Nat × DBTrashItem)} {k : TrashKind}
    {ak ak' : List Nat} {n : Nat} (hsub : ∀ a ∈ ak', a ∈ ak)
    (h : CrossInv tr k ak n) : CrossInv tr k ak' n :=
  fun p hp hk => ⟨(h p hp hk).1, fun hmem => (h p hp hk).2 (hsub _ hmem)⟩

theorem crossInv_subTrash {tr tr' : List (Nat × DBTrashItem)} {k : TrashKind}
    {ak : List Nat} {n : Nat} (hsub : ∀ p ∈ tr', p ∈ tr)
    (h : CrossInv tr k ak n) : CrossInv tr' k ak n :=
  fun p hp hk => h p (hsub p hp) hk

theorem crossInv_mono {tr : List (Nat × DBTrashItem)} {k : TrashKind}
    {ak : List Nat} {n m : Nat} (hnm : n ≤ m)
    (h : CrossInv tr k ak n) : CrossInv tr k ak m :=
  fun p hp hk => ⟨lt_of_lt_of_le (h p hp hk).1 hnm, (h p hp hk).2⟩

/-- Adding an active record under the fresh generator key cannot collide
with any trashed original id (those are all below the generator). -/
theorem crossInv_append_active {tr : List (Nat × DBTrashItem)} {k : TrashKind}
    {ak : List Nat} {n : Nat} (h : CrossInv tr k ak n) :
    CrossInv tr k (ak ++ [n]) (n + 1) := by
  intro p hp hk
  refine ⟨Nat.lt_succ_of_lt (h p hp hk).1, ?_⟩
  intro hmem
  rcases List.mem_append.mp hmem with h1 | h2
  · exact (h p hp hk).2 h1
  · exact absurd (List.mem_singleton.mp h2) (Nat.ne_of_lt (h p hp hk).1)

theorem keys_sub_of_filter (l : List (Nat × α)) (f : Nat × α → Bool) :
    ∀ a ∈ (l.filter f).map Prod.fst, a ∈ l.map Prod.fst := by
  intro a ha
  rcases List.mem_map.mp ha with ⟨p, hp, rfl⟩
  exact List.mem_map.mpr ⟨p, (List.mem_filter.mp hp).1, rfl⟩

/-- Deleting a folder extends the trash store with the folder entry under the
current generator key and one entry per contained file under the keys
that follow; all keys stay fresh and unique. -/
theorem stInv_trash_folderDelete {tr : List (Nat × DBTrashItem)} {ntr : Nat}
    (e : DBTrashItem) (F : List (Nat × DBFile)) (now : Nat) (h : StInv tr ntr) :
    StInv (tr ++ (ntr, e) :: trashEntriesFor (ntr + 1) now F) (ntr + 1 + F.length) := by
  constructor
  · intro p hp
    rcases List.mem_append.mp hp with h1 | h2
    · have := h.1 p h1
      omega
    · rcases List.mem_cons.mp h2 with rfl | h3
      · show ntr < ntr + 1 + F.length
        omega
      · have := (trashEntriesFor_bounds F (ntr + 1) now p h3).2
        omega
  · rw [List.map_append, List.map_cons, List.nodup_append]
    refine ⟨h.2, ?_, ?_⟩
    · rw [List.nodup_cons]
      refine ⟨?_, trashEntriesFor_keys_nodup F (ntr + 1) now⟩
      intro hmem
      rcases List.mem_map.mp hmem with ⟨p, hp, hpk⟩
      have := (trashEntriesFor_bounds F (ntr + 1) now p hp).1
      omega
    · intro a ha hb
      rcases List.mem_map.mp ha with ⟨p, hp, rfl⟩
      have hlt := h.1 p hp
      rcases List.mem_cons.mp hb with heq | h3
      · omega
      · rcases List.mem_map.mp h3 with ⟨q, hq, hqk⟩
        have := (trashEntriesFor_bounds F (ntr + 1) now q hq).1
        omega

/-- Every store operation preserves the invariant. -/
theorem inv_applyOp (op : DBOp) (s : DB) (h : Inv s) : Inv (applyOp op s) := by
  obtain ⟨hfi, hfo, htr, hcf, hcd⟩ := h
  cases op with
  | addFile f =>
    simp only [applyOp, addFile]
    refine ⟨stInv_append_fresh f hfi, hfo, htr, ?_, hcd⟩
    simp only [List.map_append, List.map_cons, List.map_nil]
    exact crossInv_append_active hcf
  | deleteFile id now =>
    simp only [applyOp]
    cases hfind : findRec s.files id with
    | none =>
      simp only [deleteFile, hfind]
      exact ⟨hfi, hfo, htr, hcf, hcd⟩
    | some p =>
      obtain ⟨hp_mem, hp_id⟩ := findRec_some hfind
      rcases p with ⟨pid, f⟩
      simp only at hp_id
      subst hp_id
      simp only [deleteFile, hfind]
      refine ⟨stInv_eraseRec pid hfi, hfo, stInv_append_fresh _ htr, ?_, ?_⟩
      · intro p hp hk
        rcases List.mem_append.mp hp with h1 | h2
        · exact ⟨(hcf p h1 hk).1,
            fun hmem => (hcf p h1 hk).2 (keys_sub_of_filter _ _ _ hmem)⟩
        · rw [List.mem_singleton.mp h2]
          refine ⟨hfi.1 _ hp_mem, ?_⟩
          intro hmem
          rcases List.mem_map.mp hmem with ⟨q, hq, hqk⟩
          exact ne_of_mem_eraseRec hq hqk
      · intro p hp hk
        rcases List.mem_append.mp hp with h1 | h2
        · exact hcd p h1 hk
        · rw [List.mem_singleton.mp h2] at hk
          simp [trashOfFile] at hk
  | permanentlyDeleteFile id =>
    simp only [applyOp, permanentlyDeleteFile]
    exact ⟨stInv_eraseRec id hfi, hfo, htr,
      crossInv_sub (keys_sub_of_filter _ _) hcf, hcd⟩
  | updateFileName id newName =>
    simp only [applyOp]
    cases hfind : findRec s.files id with
    | none =>
      simp only [updateFileName, hfind]
      exact ⟨hfi, hfo, htr, hcf, hcd⟩
    | some p =>
      simp only [updateFileName, hfind, Inv]
      refine ⟨stInv_map_keepKeys _ (fun p => by split <;> rfl) hfi, hfo, htr, ?_, hcd⟩
      rw [keys_map_fst_eq _ _ (fun p => by split <;> rfl)]
      exact hcf
  | moveFile id newFolderId =>
    simp only [applyOp]
    cases hfind : findRec s.files id with
    | none =>
      simp only [moveFile, hfind]
      exact ⟨hfi, hfo, htr, hcf, hcd⟩
    | some p =>
      simp only [moveFile, hfind, Inv]
      refine ⟨stInv_map_keepKeys _ (fun p => by split <;> rfl) hfi, hfo, htr, ?_, hcd⟩
      rw [keys_map_fst_eq _ _ (fun p => by split <;> rfl)]
      exact hcf
  | createFolder name parentId now =>
    simp only [applyOp, createFolder]
    refine ⟨hfi, stInv_append_fresh _ hfo, htr, hcf, ?_⟩
    simp only [List.map_append, List.map_cons, List.map_nil]
    exact crossInv_append_active hcd
  | deleteFolder fid now =>
    simp only [applyOp]
    cases hfind : findRec s.folders fid with
    | none =>
      simp only [deleteFolder, hfind]
      exact ⟨hfi, hfo, htr, hcf, hcd⟩
    | some p =>
      obtain ⟨hp_mem, hp_id⟩ := findRec_some hfind
      rcases p with ⟨pid, folder⟩
      simp only at hp_id
      subst hp_id
      simp only [deleteFolder, hfind]
      refine ⟨stInv_filter _ hfi, stInv_eraseRec pid hfo,
        stInv_trash_folderDelete _ _ now htr, ?_, ?_⟩
      · -- file-kind exclusivity against the remaining files
        intro p hp hk
        rcases List.mem_append.mp hp with h1 | h2
        · exact ⟨(hcf p h1 hk).1,
            fun hmem => (hcf p h1 hk).2 (keys_sub_of_filter _ _ _ hmem)⟩
        · rcases List.mem_cons.mp h2 with rfl | h3
          · simp [trashOfFolder] at hk
          · rcases mem_trashEntriesFor _ _ now p h3 with ⟨q, hq, hpq⟩
            have hq_files := (List.mem_filter.mp hq).1
            have hq_pred := (List.mem_filter.mp hq).2
            rw [hpq]
            refine ⟨hfi.1 q hq_files, ?_⟩
            intro hmem
            rcases List.mem_map.mp hmem with ⟨r, hr, hrk⟩
            have hr_files := (List.mem_filter.mp hr).1
            have hr_pred := (List.mem_filter.mp hr).2
            have : r = q := List.inj_on_of_nodup_map hfi.2 hr_files hq_files hrk
            rw [this] at hr_pred
            rw [hq_pred] at hr_pred
            simp at hr_pred
      · -- folder-kind exclusivity against the remaining folders
        intro p hp hk
        rcases List.mem_append.mp hp with h1 | h2
        · exact ⟨(hcd p h1 hk).1,
            fun hmem => (hcd p h1 hk).2 (keys_sub_of_filter _ _ _ hmem)⟩
        · rcases List.mem_cons.mp h2 with rfl | h3
          · refine ⟨hfo.1 _ hp_mem, ?_⟩
            intro hmem
            rcases List.mem_map.mp hmem with ⟨q, hq, hqk⟩
            exact ne_of_mem_eraseRec hq hqk
          · rcases mem_trashEntriesFor _ _ now p h3 with ⟨q, hq, hpq⟩
            rw [hpq] at hk
            simp [trashOfFile] at hk
  | restoreFromTrash tid now =>
    simp only [applyOp]
    cases hfind : findRec s.trash tid with
    | none =>
      simp only [restoreFromTrash, hfind]
      exact ⟨hfi, hfo, htr, hcf, hcd⟩
    | some p =>
      rcases p with ⟨pid, t⟩
      cases htk : t.kind with
      | file =>
        simp only [restoreFromTrash, hfind, htk]
        refine ⟨stInv_append_fresh _ hfi, hfo, stInv_eraseRec tid htr, ?_, ?_⟩
        · simp only [List.map_append, List.map_cons, List.map_nil]
          exact crossInv_subTrash (fun q hq => mem_of_mem_eraseRec hq)
            (crossInv_append_active hcf)
        · exact crossInv_subTrash (fun q hq => mem_of_mem_eraseRec hq) hcd
      | folder =>
        simp only [restoreFromTrash, hfind, htk]
        refine ⟨hfi, stInv_append_fresh _ hfo, stInv_eraseRec tid htr, ?_, ?_⟩
        · exact crossInv_subTrash (fun q hq => mem_of_mem_eraseRec hq) hcf
        · simp only [List.map_append, List.map_cons, List.map_nil]
          exact crossInv_subTrash (fun q hq => mem_of_mem_eraseRec hq)
            (crossInv_append_active hcd)
  | deleteFromTrash tid =>
    simp only [applyOp, deleteFromTrash]
    exact ⟨hfi, hfo, stInv_eraseRec tid htr,
      crossInv_subTrash (fun q hq => mem_of_mem_eraseRec hq) hcf,
      crossInv_subTrash (fun q hq => mem_of_mem_eraseRec hq) hcd⟩
  | emptyTrash =>
    simp only [applyOp, emptyTrash]
    exact ⟨hfi, hfo, ⟨by simp, by simp⟩, fun p hp => by simp at hp,
      fun p hp => by simp at hp⟩
  | clearAllData =>
    simp only [applyOp, clearAllData]
    exact ⟨⟨by simp, by simp⟩, ⟨by simp, by simp⟩, ⟨by simp, by simp⟩,
      fun p hp => by simp at hp, fun p hp => by simp at hp⟩

/-! ### Claim C3 -/

/-- C3: every store operation preserves the exclusivity/freshness
invariant (a logical item lives in exactly one of active table and trash
table, and object ids are never reused because every key stays below its
auto-increment generator); soft-deleting a file adds its full payload to
the trash store and removes it from the file store in one state
transition, and restoring a file trash item adds a fresh active record
under the next generator key and removes the trash entry in one state
transition. -/
theorem c3_store_invariant_and_atomic_transitions :
    (∀ (op : DBOp) (s : DB), Inv s → Inv (applyOp op s)) ∧
    (∀ (s : DB) (fileId now : Nat) (f : DBFile),
      findRec s.files fileId = some (fileId, f) →
      deleteFile fileId now s = .ok { s with
        trash := s.trash ++ [(s.nextTrashId, trashOfFile fileId f now)],
        nextTrashId := s.nextTrashId + 1,
        files := eraseRec s.files fileId }) ∧
    (∀ (s : DB) (trashId now : Nat) (t : DBTrashItem),
      findRec s.trash trashId = some (trashId, t) → t.kind = .file →
      restoreFromTrash trashId now s = .ok { s with
        files := s.files ++ [(s.nextFileId,
          DBFile.mk t.name t.fileType t.size now (t.content.getD [])
            t.folderId t.encrypted)],
        nextFileId := s.nextFileId + 1,
        trash := eraseRec s.trash trashId }) := by
  refine ⟨fun op s h => inv_applyOp op s h, ?_, ?_⟩
  · intro s fileId now f hfind
    simp only [deleteFile, hfind]
  · intro s trashId now t hfind hkind
    simp only [restoreFromTrash, hfind, hkind]

/-- Concrete store used to witness C3. -/
def c3File : DBFile := DBFile.mk [97] [] 1 0 [5] none false

/-- Concrete trash item used to witness C3 (original id 0, already absent
from the file store). -/
def c3Trash : DBTrashItem := DBTrashItem.mk 0 .file [98] (some [6]) 2 [] none none 0 false

/-- Concrete database state used to witness C3. -/
def c3DB : DB := DB.mk [(1, c3File)] [] [(3, c3Trash)] 2 1 4

/-- Witness for C3 at a concrete state: the invariant holds, is preserved
by a delete, and the delete/restore transitions have the stated shape. -/
theorem c3_store_invariant_witness :
    Inv c3DB ∧
      Inv (applyOp (.deleteFile 1 9) c3DB) ∧
      deleteFile 1 9 c3DB = .ok { c3DB with
        trash := c3DB.trash ++ [(c3DB.nextTrashId, trashOfFile 1 c3File 9)],
        nextTrashId := c3DB.nextTrashId + 1,
        files := eraseRec c3DB.files 1 } ∧
      restoreFromTrash 3 9 c3DB = .ok { c3DB with
        files := c3DB.files ++ [(c3DB.nextFileId,
          DBFile.mk c3Trash.name c3Trash.fileType c3Trash.size 9
            (c3Trash.content.getD []) c3Trash.folderId c3Trash.encrypted)],
        nextFileId := c3DB.nextFileId + 1,
        trash := eraseRec c3DB.trash 3 } :=
  ⟨by decide,
   c3_store_invariant_and_atomic_transitions.1 (.deleteFile 1 9) c3DB (by decide),
   c3_store_invariant_and_atomic_transitions.2.1 c3DB 1 9 c3File (by decide),
   c3_store_invariant_and_atomic_transitions.2.2 c3DB 3 9 c3Trash (by decide) (by decide)⟩

/-! ### Claim C9 -/

theorem foldl_add_eq_sum (g : α → Nat) (l : List α) (init : Nat) :
    l.foldl (fun acc x => acc + g x) init = init + (l.map g).sum := by
  induction l generalizing init with
  | nil => simp
  | cons x xs ih =>
    simp only [List.foldl_cons, List.map_cons, List.sum_cons, ih]
    omega

/-- C9: after any sequence of store operations, the storage statistics are
exactly the sums and counts over the current records: `used` is the sum of
active file sizes, `trashSize` the sum of trash item sizes, and the two
counts are the record counts. -/
theorem c9_storage_stats_additivity (ops : List DBOp) :
    (getStorageStats (applyOps ops emptyDB)).used =
      ((applyOps ops emptyDB).files.map (fun p => p.2.size)).sum ∧
    (getStorageStats (applyOps ops emptyDB)).trashSize =
      ((applyOps ops emptyDB).trash.map (fun p => p.2.size)).sum ∧
    (getStorageStats (applyOps ops emptyDB)).fileCount =
      (applyOps ops emptyDB).files.length ∧
    (getStorageStats (applyOps ops emptyDB)).trashCount =
      (applyOps ops emptyDB).trash.length := by
  refine ⟨?_, ?_, rfl, rfl⟩ <;>
  · simp only [getStorageStats]
    rw [foldl_add_eq_sum]
    omega

/-! ### Claim C10 -/

/-- C10: restoring a trashed file preserves name, content, size, file
type, parent-folder reference and encrypted flag, but stores it under the
fresh auto-increment key and stamps `lastModified` with the restoration
time (a restored folder likewise gets a fresh `createdAt`); apart from the
appended record and the removed trash entry, no record in any store
changes. -/
theorem c10_restore_payload_fresh_id_and_frame (s : DB) (trashId now : Nat)
    (t : DBTrashItem) (hfind : findRec s.trash trashId = some (trashId, t)) :
    (t.kind = .file →
      restoreFromTrash trashId now s = .ok { s with
        files := s.files ++ [(s.nextFileId,
          DBFile.mk t.name t.fileType t.size now (t.content.getD [])
            t.folderId t.encrypted)],
        nextFileId := s.nextFileId + 1,
        trash := eraseRec s.trash trashId }) ∧
    (t.kind = .folder →
      restoreFromTrash trashId now s = .ok { s with
        folders := s.folders ++ [(s.nextFolderId, DBFolder.mk t.name t.parentId now)],
        nextFolderId := s.nextFolderId + 1,
        trash := eraseRec s.trash trashId }) := by
  constructor <;> intro hk <;> simp only [restoreFromTrash, hfind, hk]

/-- Concrete trash item used to witness C10. -/
def c10Trash : DBTrashItem := DBTrashItem.mk 2 .file [99] (some [8]) 4 [] none none 0 true

/-- Concrete database state used to witness C10. -/
def c10DB : DB := DB.mk [] [] [(7, c10Trash)] 3 1 8

/-- Witness for C10: restoring trash entry 7 at time 11. -/
theorem c10_restore_witness :
    findRec c10DB.trash 7 = some (7, c10Trash) ∧ c10Trash.kind = .file ∧
      restoreFromTrash 7 11 c10DB = .ok { c10DB with
        files := c10DB.files ++ [(c10DB.nextFileId,
          DBFile.mk c10Trash.name c10Trash.fileType c10Trash.size 11
            (c10Trash.content.getD []) c10Trash.folderId c10Trash.encrypted)],
        nextFileId := c10DB.nextFileId + 1,
        trash := eraseRec c10DB.trash 7 } :=
  ⟨by decide, by decide,
   (c10_restore_payload_fresh_id_and_frame c10DB 7 11 c10Trash (by decide)).1 (by decide)⟩

end GDrive
